import Mathlib

/-!
A shallow embedding of the effect algebra (`Cmd`), the `Resource` wrapper and
the driver loop `Host::run_automat` of src/elm.rs, together with a model of
`Screen::poll_events` (src/tui.rs) and of the raw-mode lifecycle of `main`
(src/main.rs together with `impl Drop for Screen` in src/tui.rs).

A `Suspend` closure (`FnOnce() -> io::Result<Msg>`) is one-shot and input-free,
so it is embedded by the value it produces when invoked.  The driver loop is
embedded as a fuel-indexed function on the loop state
`(model, cmd, cmd_stack, poll index)`; each unit of fuel is one iteration of
the Rust `loop`, and the function also returns a trace of the observable calls
the loop makes (view, commit, invoking a deferred computation, feeding a
message to update, polling) so that ordering claims can be stated.
-/

/-- Models `std::io::ErrorKind` (only the distinction the repository makes). -/
inductive ErrorKind where
  | timedOut
  | other
deriving DecidableEq

/-- Models `std::io::Error`: a kind together with the message its `Display`
implementation shows. -/
structure IoError where
  kind : ErrorKind
  message : String
deriving DecidableEq

/-- Models `io::Error::to_string()`: the display output of an error built with
`io::Error::new(kind, message)` is its message. -/
def IoError.toString (e : IoError) : String := e.message

/-- `Cmd<Msg>` of src/elm.rs.  The `Suspend` payload embeds the one-shot
closure by its result; `AndThen`'s two unnamed fields are bound as `thn` and
`slf` after the binders `then` of `and_then` and `this`/`that` of the
interpreter. -/
inductive Cmd (Msg : Type) where
  | None : Cmd Msg
  | Suspend (effect : Except IoError Msg) : Cmd Msg
  | Dispatch (msg : Msg) : Cmd Msg
  | AndThen (thn slf : Cmd Msg) : Cmd Msg
  | Gtfo : Cmd Msg

/-- `Cmd::none` of src/elm.rs. -/
def Cmd.none {Msg : Type} : Cmd Msg := Cmd.None

/-- `Cmd::suspend` of src/elm.rs. -/
def Cmd.suspend {Msg : Type} (effect : Except IoError Msg) : Cmd Msg :=
  Cmd.Suspend effect

/-- `Cmd::dispatch` of src/elm.rs. -/
def Cmd.dispatch {Msg : Type} (message : Msg) : Cmd Msg :=
  Cmd.Dispatch message

/-- `Cmd::and_then` of src/elm.rs: `AndThen(Box::new(then), Box::new(self))`,
the argument stored first, the receiver second. -/
def Cmd.and_then {Msg : Type} (self thn : Cmd Msg) : Cmd Msg :=
  Cmd.AndThen thn self

/-- `Cmd::gtfo` of src/elm.rs. -/
def Cmd.gtfo {Msg : Type} : Cmd Msg := Cmd.Gtfo

/-- `Resource<A>` of src/elm.rs. -/
inductive Resource (α : Type) where
  | Unknown : Resource α
  | Present (a : α) : Resource α
  | Failed (description : String) : Resource α
deriving DecidableEq

/-- `Resource::fetch` of src/elm.rs: wraps a fallible one-shot computation in a
`Suspend` whose invocation always succeeds at the message level. -/
def Resource.fetch {α Msg : Type} (effect : Except IoError α)
    (as_msg : Resource α → Msg) : Cmd Msg :=
  Cmd.suspend
    (match effect with
     | Except.ok a => Except.ok (as_msg (Resource.Present a))
     | Except.error e => Except.ok (as_msg (Resource.Failed e.toString)))

/-- `Resource::present` of src/elm.rs. -/
def Resource.present {α : Type} : Resource α → Option α
  | Resource.Present x => Option.some x
  | _ => Option.none

/-- One running `Application` + `Host` pair as `run_automat` uses them:
`update` is `Application::update` (the model is mutated in place, embedded as
returning the new model next to the produced command), `view` is
`Application::view` applied to the fixed screen buffer, `commit` is
`Host::commit_screen_buffer` on that buffer, `poll` gives the result of the
n-th call to `Host::poll_events`, and `fromEvent` is the fixed conversion
`App::Msg::from`. -/
structure Automat (Model Msg Event : Type) where
  update : Model → Msg → Model × Cmd Msg
  view : Model → Except IoError Unit
  commit : Except IoError Unit
  poll : Nat → Except IoError Event
  fromEvent : Event → Msg

/-- Observable calls made by one run of the driver loop, in order. -/
inductive Ev (Msg : Type) where
  | viewed : Ev Msg
  | committed : Ev Msg
  | invoked : Ev Msg
  | polled : Ev Msg
  | terminated : Ev Msg
  | updated (msg : Msg) : Ev Msg
deriving DecidableEq

/-- The message fed to `update` by a trace entry, if any. -/
def Ev.msg {Msg : Type} : Ev Msg → Option Msg
  | Ev.updated m => Option.some m
  | _ => Option.none

/-- Outcome of running the driver loop for a bounded number of iterations:
`ok` is `break Ok(())` (the loop state at the break is kept observable),
`err` is a propagated `io::Error`, and `fuelOut` reports the loop state when
the iteration bound was reached. -/
inductive RunResult (Model Msg : Type) where
  | ok (model : Model) (stack : List (Cmd Msg)) (pollIdx : Nat) : RunResult Model Msg
  | err (e : IoError) : RunResult Model Msg
  | fuelOut (model : Model) (cmd : Cmd Msg) (stack : List (Cmd Msg)) (pollIdx : Nat) :
      RunResult Model Msg

/-- Did the loop return `Ok(())`? -/
def RunResult.isOk {Model Msg : Type} : RunResult Model Msg → Bool
  | RunResult.ok _ _ _ => true
  | _ => false

/-- `Host::run_automat` of src/elm.rs, lines 111-133: the `loop` body,
iterated at most `fuel` times, on the state
`(model, cmd, cmd_stack, poll index)`.  Every iteration first calls `view`
and `commit_screen_buffer` (each `?`-propagating failure), then matches on
the current command exactly as the source does.  The second component is the
trace of observable calls. -/
def run_automat {Model Msg Event : Type} (A : Automat Model Msg Event) :
    Nat → Model → Cmd Msg → List (Cmd Msg) → Nat →
    RunResult Model Msg × List (Ev Msg)
  | 0, model, cmd, stack, pollIdx => (RunResult.fuelOut model cmd stack pollIdx, [])
  | fuel+1, model, cmd, stack, pollIdx =>
    match A.view model with
    | Except.error e => (RunResult.err e, [Ev.viewed])
    | Except.ok _ =>
      match A.commit with
      | Except.error e => (RunResult.err e, [Ev.viewed, Ev.committed])
      | Except.ok _ =>
        match cmd with
        | Cmd.Suspend effect =>
          match effect with
          | Except.error e => (RunResult.err e, [Ev.viewed, Ev.committed, Ev.invoked])
          | Except.ok msg =>
            ((run_automat A fuel (A.update model msg).1 (A.update model msg).2 stack pollIdx).1,
             [Ev.viewed, Ev.committed, Ev.invoked, Ev.updated msg]
               ++ (run_automat A fuel (A.update model msg).1 (A.update model msg).2 stack pollIdx).2)
        | Cmd.Dispatch msg =>
            ((run_automat A fuel (A.update model msg).1 (A.update model msg).2 stack pollIdx).1,
             [Ev.viewed, Ev.committed, Ev.updated msg]
               ++ (run_automat A fuel (A.update model msg).1 (A.update model msg).2 stack pollIdx).2)
        | Cmd.Gtfo => (RunResult.ok model stack pollIdx, [Ev.viewed, Ev.committed, Ev.terminated])
        | Cmd.AndThen thn slf =>
            ((run_automat A fuel model slf (thn :: stack) pollIdx).1,
             [Ev.viewed, Ev.committed]
               ++ (run_automat A fuel model slf (thn :: stack) pollIdx).2)
        | Cmd.None =>
          match stack with
          | c :: rest =>
            ((run_automat A fuel model c rest pollIdx).1,
             [Ev.viewed, Ev.committed] ++ (run_automat A fuel model c rest pollIdx).2)
          | [] =>
            match A.poll pollIdx with
            | Except.error e => (RunResult.err e, [Ev.viewed, Ev.committed, Ev.polled])
            | Except.ok ev =>
              ((run_automat A fuel (A.update model (A.fromEvent ev)).1
                  (A.update model (A.fromEvent ev)).2 [] (pollIdx+1)).1,
               [Ev.viewed, Ev.committed, Ev.polled, Ev.updated (A.fromEvent ev)]
                 ++ (run_automat A fuel (A.update model (A.fromEvent ev)).1
                       (A.update model (A.fromEvent ev)).2 [] (pollIdx+1)).2)

/-- `Screen::poll_events` of src/tui.rs: `event::poll` with a 5427 ms bounded
wait, then `event::read`.  `pending` is the event the OS delivers within the
wait, if any; when none arrives the call returns an `io::Error` of kind
`TimedOut` with the message the source constructs. -/
def Screen.poll_events {Event : Type} (pending : Option Event) : Except IoError Event :=
  match pending with
  | Option.some ev => Except.ok ev
  | Option.none =>
      Except.error (IoError.mk ErrorKind.timedOut "Timed out waiting for the world.")

/-- Calls to the global raw-mode switch of the terminal. -/
inductive RawEv where
  | enable
  | disable
deriving DecidableEq

/-- How the program run ends: `ok`/`err` are the two values `main` can return,
`panicked` models an abnormal exit by unwinding out of `run_automat`. -/
inductive MainExit where
  | ok
  | err (e : IoError)
  | panicked
deriving DecidableEq

/-- Models `fn main` of src/main.rs,
`tui::Screen::attach(out)?.enter_raw_mode()?.run_automat::<Editor>()`,
together with the Rust drop rules the source relies on: the `Screen` value is
dropped when `enter_raw_mode` propagates a failure, and the temporary of the
chain is dropped when the statement finishes or unwinds; `impl Drop for
Screen` (src/tui.rs) calls `terminal::disable_raw_mode` unconditionally.
`attach` is the result of `Screen::attach`, `enable` the result of
`terminal::enable_raw_mode` inside `Screen::enter_raw_mode`, and `run` the
outcome of `run_automat`.  Returns the trace of raw-mode calls and the
process outcome. -/
def main_raw_trace (attach : Except IoError Unit) (enable : Except IoError Unit)
    (run : MainExit) : List RawEv × MainExit :=
  match attach with
  | Except.error e => ([], MainExit.err e)
  | Except.ok _ =>
    match enable with
    | Except.error e => ([RawEv.enable, RawEv.disable], MainExit.err e)
    | Except.ok _ => ([RawEv.enable, RawEv.disable], run)

/-- A concrete automat for evaluating the theorems: the model is the list of
messages seen so far, `update` appends the message and returns `Cmd::None`,
view and commit always succeed, every poll yields the unit event. -/
def natAutomat : Automat (List Nat) Nat Unit where
  update := fun m msg => (m ++ [msg], Cmd.None)
  view := fun _ => Except.ok ()
  commit := Except.ok ()
  poll := fun _ => Except.ok ()
  fromEvent := fun _ => 0

/-- Like `natAutomat`, except every poll behaves as `Screen::poll_events`
does when no event arrives within the bounded wait. -/
def timeoutAutomat : Automat (List Nat) Nat Unit where
  update := fun m msg => (m ++ [msg], Cmd.None)
  view := fun _ => Except.ok ()
  commit := Except.ok ()
  poll := fun _ => Screen.poll_events Option.none
  fromEvent := fun _ => 0

/-- Resume an interrupted run for `k` further iterations: if a bounded run
stopped only because its fuel ran out, continue from the recorded loop state,
appending the new trace. -/
def contRun {Model Msg Event : Type} (A : Automat Model Msg Event) (k : Nat) :
    RunResult Model Msg × List (Ev Msg) → RunResult Model Msg × List (Ev Msg)
  | (RunResult.fuelOut m c st pollIdx, tr) =>
      ((run_automat A k m c st pollIdx).1, tr ++ (run_automat A k m c st pollIdx).2)
  | r => r

/-- Effect chains built from `none()`, `dispatch(...)` and `and_then`: the
shape §8 of the spec tests (a chain of `Immediate` effects of any nesting
depth). -/
inductive isChain {Msg : Type} : Cmd Msg → Prop where
  | none : isChain Cmd.None
  | dispatch (msg : Msg) : isChain (Cmd.Dispatch msg)
  | andThen {thn slf : Cmd Msg} :
      isChain thn → isChain slf → isChain (Cmd.AndThen thn slf)

/-- Number of loop iterations the interpreter spends draining a chain to
`None`: one per `Dispatch` leaf, and for each `AndThen` node one iteration to
push plus one to pop. -/
def chainFuel {Msg : Type} : Cmd Msg → Nat
  | Cmd.AndThen thn slf => chainFuel slf + chainFuel thn + 2
  | Cmd.Dispatch _ => 1
  | _ => 0

/-- The messages at the leaves of an effect chain, in the left-to-right order
in which the chain was built by `and_then` (the second field of `AndThen` is
the original receiver, which executes first). -/
def msgLeaves {Msg : Type} : Cmd Msg → List Msg
  | Cmd.AndThen thn slf => msgLeaves slf ++ msgLeaves thn
  | Cmd.Dispatch msg => [msg]
  | _ => []

/-- The trace the driver loop produces while draining a chain whose `update`
always returns `Cmd::None`. -/
def chainTrace {Msg : Type} : Cmd Msg → List (Ev Msg)
  | Cmd.AndThen thn slf =>
      [Ev.viewed, Ev.committed] ++ chainTrace slf
        ++ [Ev.viewed, Ev.committed] ++ chainTrace thn
  | Cmd.Dispatch msg => [Ev.viewed, Ev.committed, Ev.updated msg]
  | _ => []

/-- Claim C1: `and_then` stores its arguments in the order
`Sequence(then, self)` — `a.and_then(b)` is `AndThen(b, a)` — and the
interpreter pushes the stored first field onto the continuation stack and
continues with the stored second field, so `a` executes first and `b`
second. -/
theorem and_then_stores_sequence {Model Msg Event : Type}
    (A : Automat Model Msg Event) (a b : Cmd Msg) (m : Model)
    (st : List (Cmd Msg)) (pollIdx fuel : Nat)
    (hview : A.view m = Except.ok ()) (hcommit : A.commit = Except.ok ()) :
    Cmd.and_then a b = Cmd.AndThen b a
    ∧ run_automat A (fuel+1) m (Cmd.and_then a b) st pollIdx
        = ((run_automat A fuel m a (b :: st) pollIdx).1,
           [Ev.viewed, Ev.committed] ++ (run_automat A fuel m a (b :: st) pollIdx).2) := by
  refine ⟨rfl, ?_⟩
  simp [run_automat, Cmd.and_then, hview, hcommit]

/-- Witness for C1 at a concrete input. -/
theorem and_then_stores_sequence_witness :
    Cmd.and_then (Cmd.dispatch 1) (Cmd.dispatch 2) = Cmd.AndThen (Cmd.dispatch 2) (Cmd.dispatch 1)
    ∧ run_automat natAutomat 1 [] (Cmd.and_then (Cmd.dispatch 1) (Cmd.dispatch 2)) [] 0
        = ((run_automat natAutomat 0 [] (Cmd.dispatch 1) [Cmd.dispatch 2] 0).1,
           [Ev.viewed, Ev.committed]
             ++ (run_automat natAutomat 0 [] (Cmd.dispatch 1) [Cmd.dispatch 2] 0).2) :=
  and_then_stores_sequence natAutomat (Cmd.dispatch 1) (Cmd.dispatch 2) [] [] 0 0 rfl rfl

/-- Claim C4: interpreting the effect built by `Resource::fetch` never
produces an interpreter-level failure: the invocation yields exactly
`as_msg(Present(v))` when the wrapped computation succeeds with `v` and
exactly `as_msg(Failed(e.to_string()))` when it fails with `e`, and that
message is fed to `update`. -/
theorem fetch_never_fails {Model Msg Event α : Type}
    (A : Automat Model Msg Event) (effect : Except IoError α)
    (as_msg : Resource α → Msg) (m : Model) (st : List (Cmd Msg)) (pollIdx : Nat)
    (hview : A.view m = Except.ok ()) (hcommit : A.commit = Except.ok ()) :
    ∃ msg : Msg,
      (match effect with
       | Except.ok v => msg = as_msg (Resource.Present v)
       | Except.error e => msg = as_msg (Resource.Failed e.toString))
      ∧ run_automat A 1 m (Resource.fetch effect as_msg) st pollIdx
          = (RunResult.fuelOut (A.update m msg).1 (A.update m msg).2 st pollIdx,
             [Ev.viewed, Ev.committed, Ev.invoked, Ev.updated msg]) := by
  cases effect with
  | ok v =>
      refine ⟨as_msg (Resource.Present v), rfl, ?_⟩
      simp [run_automat, Resource.fetch, Cmd.suspend, hview, hcommit]
  | error e =>
      refine ⟨as_msg (Resource.Failed e.toString), rfl, ?_⟩
      simp [run_automat, Resource.fetch, Cmd.suspend, hview, hcommit]

/-- Witness for C4 at a concrete input (the failing computation). -/
theorem fetch_never_fails_witness :
    ∃ msg : Nat,
      (match (Except.error (IoError.mk ErrorKind.other "boom") : Except IoError Nat) with
       | Except.ok v => msg = v + 100
       | Except.error e => msg = e.toString.length + 100)
      ∧ run_automat natAutomat 1 []
            (Resource.fetch (Except.error (IoError.mk ErrorKind.other "boom"))
              (fun r : Resource Nat =>
                match r with
                | Resource.Unknown => 100
                | Resource.Present v => v + 100
                | Resource.Failed s => s.length + 100)) [] 0
          = (RunResult.fuelOut (natAutomat.update [] msg).1 (natAutomat.update [] msg).2 [] 0,
             [Ev.viewed, Ev.committed, Ev.invoked, Ev.updated msg]) :=
  fetch_never_fails natAutomat (Except.error (IoError.mk ErrorKind.other "boom"))
    (fun r : Resource Nat =>
      match r with
      | Resource.Unknown => 100
      | Resource.Present v => v + 100
      | Resource.Failed s => s.length + 100) [] [] 0 rfl rfl

/-- Claim C5: when the current effect is `None` and the continuation stack is
non-empty, the interpreter pops the most recently pushed entry (the head,
since pushing is consing) and makes it the current effect without producing a
message; with an empty stack it calls the event-poll boundary exactly once,
converts the event by the fixed rule `fromEvent`, and feeds the resulting
message to `update` before any other message is produced. -/
theorem empty_pops_or_polls {Model Msg Event : Type}
    (A : Automat Model Msg Event) (m : Model) (pollIdx fuel : Nat)
    (hview : A.view m = Except.ok ()) (hcommit : A.commit = Except.ok ()) :
    (∀ (c : Cmd Msg) (rest : List (Cmd Msg)),
      run_automat A (fuel+1) m Cmd.None (c :: rest) pollIdx
        = ((run_automat A fuel m c rest pollIdx).1,
           [Ev.viewed, Ev.committed] ++ (run_automat A fuel m c rest pollIdx).2))
    ∧ (∀ ev : Event, A.poll pollIdx = Except.ok ev →
        run_automat A (fuel+1) m Cmd.None [] pollIdx
          = ((run_automat A fuel (A.update m (A.fromEvent ev)).1
                (A.update m (A.fromEvent ev)).2 [] (pollIdx+1)).1,
             [Ev.viewed, Ev.committed, Ev.polled, Ev.updated (A.fromEvent ev)]
               ++ (run_automat A fuel (A.update m (A.fromEvent ev)).1
                     (A.update m (A.fromEvent ev)).2 [] (pollIdx+1)).2)) := by
  constructor
  · intro c rest
    simp [run_automat, hview, hcommit]
  · intro ev hpoll
    simp [run_automat, hview, hcommit, hpoll]

/-- Witness for C5 at a concrete input. -/
theorem empty_pops_or_polls_witness :
    (∀ (c : Cmd Nat) (rest : List (Cmd Nat)),
      run_automat natAutomat 1 [] Cmd.None (c :: rest) 0
        = ((run_automat natAutomat 0 [] c rest 0).1,
           [Ev.viewed, Ev.committed] ++ (run_automat natAutomat 0 [] c rest 0).2))
    ∧ (∀ ev : Unit, natAutomat.poll 0 = Except.ok ev →
        run_automat natAutomat 1 [] Cmd.None [] 0
          = ((run_automat natAutomat 0 (natAutomat.update [] (natAutomat.fromEvent ev)).1
                (natAutomat.update [] (natAutomat.fromEvent ev)).2 [] 1).1,
             [Ev.viewed, Ev.committed, Ev.polled, Ev.updated (natAutomat.fromEvent ev)]
               ++ (run_automat natAutomat 0 (natAutomat.update [] (natAutomat.fromEvent ev)).1
                     (natAutomat.update [] (natAutomat.fromEvent ev)).2 [] 1).2)) :=
  empty_pops_or_polls natAutomat [] 0 0 rfl rfl

/-- Claim C6: in the reference behavior an event-poll timeout is surfaced as
a failure that aborts the driver loop and propagates to the caller:
`Screen::poll_events` turns the elapsed bounded wait into a `TimedOut` error,
and the loop's `?` on the poll result returns that error instead of treating
it as a recoverable non-event. -/
theorem poll_timeout_aborts {Model Msg Event : Type}
    (A : Automat Model Msg Event) (m : Model) (pollIdx fuel : Nat)
    (hview : A.view m = Except.ok ()) (hcommit : A.commit = Except.ok ())
    (hpoll : A.poll pollIdx = Screen.poll_events (Option.none : Option Event)) :
    run_automat A (fuel+1) m Cmd.None [] pollIdx
      = (RunResult.err (IoError.mk ErrorKind.timedOut "Timed out waiting for the world."),
         [Ev.viewed, Ev.committed, Ev.polled]) := by
  simp [run_automat, hview, hcommit, hpoll, Screen.poll_events]

/-- Witness for C6 at a concrete input. -/
theorem poll_timeout_aborts_witness :
    run_automat timeoutAutomat 1 [] Cmd.None [] 0
      = (RunResult.err (IoError.mk ErrorKind.timedOut "Timed out waiting for the world."),
         [Ev.viewed, Ev.committed, Ev.polled]) :=
  poll_timeout_aborts timeoutAutomat [] 0 0 rfl rfl rfl

/-- Claim C7: a `Suspend` (Deferred) effect whose one-shot computation fails
when invoked makes the driver loop return that failure, and `view` is not
called again after the failing invocation (the trace ends at the
invocation). -/
theorem failing_suspend_aborts {Model Msg Event : Type}
    (A : Automat Model Msg Event) (m : Model) (st : List (Cmd Msg))
    (pollIdx fuel : Nat) (e : IoError)
    (hview : A.view m = Except.ok ()) (hcommit : A.commit = Except.ok ()) :
    run_automat A (fuel+1) m (Cmd.Suspend (Except.error e)) st pollIdx
      = (RunResult.err e, [Ev.viewed, Ev.committed, Ev.invoked]) := by
  simp [run_automat, hview, hcommit]

/-- Witness for C7 at a concrete input. -/
theorem failing_suspend_aborts_witness :
    run_automat natAutomat 5 []
        (Cmd.Suspend (Except.error (IoError.mk ErrorKind.other "boom"))) [Cmd.Gtfo] 0
      = (RunResult.err (IoError.mk ErrorKind.other "boom"),
         [Ev.viewed, Ev.committed, Ev.invoked]) :=
  failing_suspend_aborts natAutomat [] [Cmd.Gtfo] 0 4 (IoError.mk ErrorKind.other "boom")
    rfl rfl

/-- Claim C10: interpreting `Gtfo` while the continuation stack is non-empty
still exits the loop immediately with success; the pending continuations are
left on the stack, never interpreted (the trace ends at the termination, with
no further invocation, update or poll). -/
theorem gtfo_discards_stack {Model Msg Event : Type}
    (A : Automat Model Msg Event) (m : Model) (c : Cmd Msg)
    (st : List (Cmd Msg)) (pollIdx fuel : Nat)
    (hview : A.view m = Except.ok ()) (hcommit : A.commit = Except.ok ()) :
    run_automat A (fuel+1) m Cmd.Gtfo (c :: st) pollIdx
      = (RunResult.ok m (c :: st) pollIdx, [Ev.viewed, Ev.committed, Ev.terminated]) := by
  simp [run_automat, hview, hcommit]

/-- Witness for C10 at a concrete input. -/
theorem gtfo_discards_stack_witness :
    run_automat natAutomat 9 [] Cmd.Gtfo [Cmd.dispatch 4, Cmd.dispatch 5] 0
      = (RunResult.ok [] [Cmd.dispatch 4, Cmd.dispatch 5] 0,
         [Ev.viewed, Ev.committed, Ev.terminated]) :=
  gtfo_discards_stack natAutomat [] (Cmd.dispatch 4) [Cmd.dispatch 5] 0 8 rfl rfl

/-- Claim C8: raw terminal mode is enabled on startup (whenever a screen was
attached) and disabled on every exit path — driver success, driver failure,
and abnormal exit by unwinding — the disable call being unconditional in
`Screen`'s drop. -/
theorem raw_mode_scoped (attach enable : Except IoError Unit) (run : MainExit) :
    (attach = Except.ok () →
      (main_raw_trace attach enable run).1 = [RawEv.enable, RawEv.disable])
    ∧ ((main_raw_trace attach enable run).1 = []
        ∨ (main_raw_trace attach enable run).1 = [RawEv.enable, RawEv.disable]) := by
  cases attach with
  | error e => simp [main_raw_trace]
  | ok u =>
      cases u
      cases enable with
      | error e => simp [main_raw_trace]
      | ok u2 => simp [main_raw_trace]

/-- Witness for C8 at a concrete input: the abnormal-exit path still shows
the enable/disable pair. -/
theorem raw_mode_scoped_witness :
    (main_raw_trace (Except.ok ()) (Except.ok ()) MainExit.panicked).1
      = [RawEv.enable, RawEv.disable] :=
  (raw_mode_scoped (Except.ok ()) (Except.ok ()) MainExit.panicked).1 rfl

theorem contRun_prefix {Model Msg Event : Type} (A : Automat Model Msg Event)
    (k : Nat) (e : Ev Msg) (res : RunResult Model Msg) (tr : List (Ev Msg)) :
    contRun A k (res, e :: tr)
      = ((contRun A k (res, tr)).1, e :: (contRun A k (res, tr)).2) := by
  cases res <;> simp [contRun]

/-- Running for `k + j` iterations is running for `j` iterations and, if only
the fuel ran out, resuming for `k` more. -/
theorem run_automat_add {Model Msg Event : Type} (A : Automat Model Msg Event)
    (k : Nat) : ∀ (j : Nat) (m : Model) (c : Cmd Msg) (st : List (Cmd Msg)) (pollIdx : Nat),
    run_automat A (k + j) m c st pollIdx = contRun A k (run_automat A j m c st pollIdx) := by
  intro j
  induction j with
  | zero =>
      intro m c st pollIdx
      simp [run_automat, contRun]
  | succ j ih =>
      intro m c st pollIdx
      show run_automat A ((k + j) + 1) m c st pollIdx = _
      cases hv : A.view m with
      | error e => simp [run_automat, hv, contRun]
      | ok u =>
          cases hc : A.commit with
          | error e => simp [run_automat, hv, hc, contRun]
          | ok u2 =>
              cases c with
              | Suspend effect =>
                  cases effect with
                  | error e => simp [run_automat, hv, hc, contRun]
                  | ok msg => simp [run_automat, hv, hc, ih, contRun_prefix]
              | Dispatch msg => simp [run_automat, hv, hc, ih, contRun_prefix]
              | Gtfo => simp [run_automat, hv, hc, contRun]
              | AndThen thn slf => simp [run_automat, hv, hc, ih, contRun_prefix]
              | None =>
                  cases st with
                  | cons c' rest => simp [run_automat, hv, hc, ih, contRun_prefix]
                  | nil =>
                      cases hp : A.poll pollIdx with
                      | error e => simp [run_automat, hv, hc, hp, contRun]
                      | ok ev => simp [run_automat, hv, hc, hp, ih, contRun_prefix]

/-- Draining an effect chain: when `update` always returns `Cmd::None` and
view/commit succeed, the loop folds the chain's messages into the model in
chain order, ends at `None` with the continuation stack exactly as it started,
and produces `chainTrace`. -/
theorem run_drain {Model Msg Event : Type} (A : Automat Model Msg Event)
    (f : Model → Msg → Model)
    (hupd : ∀ m msg, A.update m msg = (f m msg, Cmd.None))
    (hview : ∀ m, A.view m = Except.ok ())
    (hcommit : A.commit = Except.ok ()) :
    ∀ {c : Cmd Msg}, isChain c → ∀ (m : Model) (st : List (Cmd Msg)) (pollIdx : Nat),
      run_automat A (chainFuel c) m c st pollIdx
        = (RunResult.fuelOut (List.foldl f m (msgLeaves c)) Cmd.None st pollIdx,
           chainTrace c) := by
  intro c hc
  induction hc with
  | none =>
      intro m st pollIdx
      simp [run_automat, chainFuel, msgLeaves, chainTrace]
  | dispatch msg =>
      intro m st pollIdx
      simp [run_automat, chainFuel, msgLeaves, chainTrace, hview, hcommit, hupd]
  | @andThen thn slf h1 h2 ih1 ih2 =>
      intro m st pollIdx
      have harith : chainFuel (Cmd.AndThen thn slf)
          = chainFuel thn + 1 + chainFuel slf + 1 := by
        simp only [chainFuel]
        omega
      rw [harith]
      simp only [run_automat, hview, hcommit]
      rw [run_automat_add A (chainFuel thn + 1) (chainFuel slf) m slf (thn :: st) pollIdx]
      rw [ih2]
      simp only [contRun]
      simp only [run_automat, hview, hcommit]
      rw [ih1]
      simp [chainTrace, msgLeaves, List.foldl_append, List.append_assoc]

theorem chainTrace_msgs {Msg : Type} : ∀ c : Cmd Msg,
    (chainTrace c).filterMap Ev.msg = msgLeaves c := by
  intro c
  induction c with
  | None => simp [chainTrace, msgLeaves]
  | Suspend effect => simp [chainTrace, msgLeaves]
  | Dispatch msg => simp [chainTrace, msgLeaves, Ev.msg]
  | AndThen thn slf ih1 ih2 => simp [chainTrace, msgLeaves, Ev.msg, ih1, ih2]
  | Gtfo => simp [chainTrace, msgLeaves]

/-- Claim C2: for every effect chain built by repeated `and_then`, of any
nesting depth, in a draining context (`update` returns `None`, view and
commit succeed) the driver loop interprets the constituent effects in
exactly the left-to-right order in which they were chained: `and_then`
concatenates leaf orders (so a sequence nested in the first half resumes,
LIFO, before the outer second half), the run folds the leaves into the model
in that order, and the messages fed to `update` along the trace are exactly
`msgLeaves c`. -/
theorem chain_left_to_right_order {Model Msg Event : Type}
    (A : Automat Model Msg Event) (f : Model → Msg → Model)
    (hupd : ∀ m msg, A.update m msg = (f m msg, Cmd.None))
    (hview : ∀ m, A.view m = Except.ok ())
    (hcommit : A.commit = Except.ok ())
    (c : Cmd Msg) (hc : isChain c) (m : Model) (st : List (Cmd Msg)) (pollIdx : Nat) :
    (∀ a b : Cmd Msg, msgLeaves (Cmd.and_then a b) = msgLeaves a ++ msgLeaves b)
    ∧ run_automat A (chainFuel c) m c st pollIdx
        = (RunResult.fuelOut (List.foldl f m (msgLeaves c)) Cmd.None st pollIdx,
           chainTrace c)
    ∧ (chainTrace c).filterMap Ev.msg = msgLeaves c :=
  ⟨fun _ _ => rfl, run_drain A f hupd hview hcommit hc m st pollIdx, chainTrace_msgs c⟩

/-- Witness for C2 at a concrete nested chain: `(d1.and_then d2).and_then d3`,
a sequence nested inside the first half of another sequence. -/
theorem chain_left_to_right_order_witness :
    (∀ a b : Cmd Nat, msgLeaves (Cmd.and_then a b) = msgLeaves a ++ msgLeaves b)
    ∧ run_automat natAutomat
        (chainFuel (Cmd.and_then (Cmd.and_then (Cmd.dispatch 1) (Cmd.dispatch 2)) (Cmd.dispatch 3)))
        [] (Cmd.and_then (Cmd.and_then (Cmd.dispatch 1) (Cmd.dispatch 2)) (Cmd.dispatch 3)) [] 0
        = (RunResult.fuelOut
            (List.foldl (fun m msg => m ++ [msg]) []
              (msgLeaves (Cmd.and_then (Cmd.and_then (Cmd.dispatch 1) (Cmd.dispatch 2)) (Cmd.dispatch 3))))
            Cmd.None [] 0,
           chainTrace (Cmd.and_then (Cmd.and_then (Cmd.dispatch 1) (Cmd.dispatch 2)) (Cmd.dispatch 3)))
    ∧ (chainTrace (Cmd.and_then (Cmd.and_then (Cmd.dispatch 1) (Cmd.dispatch 2)) (Cmd.dispatch 3))).filterMap Ev.msg
        = msgLeaves (Cmd.and_then (Cmd.and_then (Cmd.dispatch 1) (Cmd.dispatch 2)) (Cmd.dispatch 3)) :=
  chain_left_to_right_order natAutomat (fun m msg => m ++ [msg])
    (fun _ _ => rfl) (fun _ => rfl) rfl
    (Cmd.and_then (Cmd.and_then (Cmd.dispatch 1) (Cmd.dispatch 2)) (Cmd.dispatch 3))
    (isChain.andThen (isChain.dispatch 3)
      (isChain.andThen (isChain.dispatch 2) (isChain.dispatch 1)))
    [] [] 0

/-- Claim C3: the driver loop returns success exactly when it interprets a
`Gtfo` effect (`break Ok(())` is the only success site); every other way the
loop ends returns a failure to the caller. -/
theorem success_iff_terminate {Model Msg Event : Type} (A : Automat Model Msg Event) :
    ∀ (fuel : Nat) (m : Model) (c : Cmd Msg) (st : List (Cmd Msg)) (pollIdx : Nat),
      (run_automat A fuel m c st pollIdx).1.isOk = true
        ↔ Ev.terminated ∈ (run_automat A fuel m c st pollIdx).2 := by
  intro fuel
  induction fuel with
  | zero =>
      intro m c st pollIdx
      simp [run_automat, RunResult.isOk]
  | succ fuel ih =>
      intro m c st pollIdx
      cases hv : A.view m with
      | error e => simp [run_automat, hv, RunResult.isOk]
      | ok u =>
        cases hc : A.commit with
        | error e => simp [run_automat, hv, hc, RunResult.isOk]
        | ok u2 =>
          cases c with
          | Suspend effect =>
              cases effect with
              | error e => simp [run_automat, hv, hc, RunResult.isOk]
              | ok msg => simp [run_automat, hv, hc, ih]
          | Dispatch msg => simp [run_automat, hv, hc, ih]
          | Gtfo => simp [run_automat, hv, hc, RunResult.isOk]
          | AndThen thn slf => simp [run_automat, hv, hc, ih]
          | None =>
              cases st with
              | cons c' rest => simp [run_automat, hv, hc, ih]
              | nil =>
                  cases hp : A.poll pollIdx with
                  | error e => simp [run_automat, hv, hc, hp, RunResult.isOk]
                  | ok ev => simp [run_automat, hv, hc, hp, ih]

/-- Claim C9: sequencing `none()` after a command is a no-op: whenever `a`
drains to `Empty` with final model `M` (uniformly in the stack below it),
`a.and_then(none())` drains to the same final model and feeds exactly the
same messages to `update` — no extra message, only two extra render/commit
rounds for the push and the pop of the `None` continuation. -/
theorem and_then_none_noop {Model Msg Event : Type}
    (A : Automat Model Msg Event) (a : Cmd Msg) (m M : Model)
    (fuel pollIdx pollIdx' : Nat) (tr : List (Ev Msg))
    (hview_m : A.view m = Except.ok ()) (hview_M : A.view M = Except.ok ())
    (hcommit : A.commit = Except.ok ())
    (H : ∀ st' : List (Cmd Msg),
      run_automat A fuel m a st' pollIdx
        = (RunResult.fuelOut M Cmd.None st' pollIdx', tr))
    (st : List (Cmd Msg)) :
    run_automat A (fuel + 2) m (Cmd.and_then a Cmd.none) st pollIdx
        = (RunResult.fuelOut M Cmd.None st pollIdx',
           [Ev.viewed, Ev.committed] ++ tr ++ [Ev.viewed, Ev.committed])
    ∧ ([Ev.viewed, Ev.committed] ++ tr ++ [Ev.viewed, Ev.committed]).filterMap Ev.msg
        = tr.filterMap Ev.msg := by
  constructor
  · have h2 : fuel + 2 = (1 + fuel) + 1 := by omega
    rw [h2]
    simp only [run_automat, Cmd.and_then, Cmd.none, hview_m, hcommit]
    rw [run_automat_add A 1 fuel m a (Cmd.None :: st) pollIdx]
    rw [H]
    simp only [contRun]
    simp only [run_automat, hview_M, hcommit]
    simp
  · simp [List.filterMap_append, Ev.msg]

/-- Witness for C9 at a concrete input. -/
theorem and_then_none_noop_witness :
    run_automat natAutomat (1 + 2) [] (Cmd.and_then (Cmd.dispatch 7) Cmd.none) [] 0
        = (RunResult.fuelOut [7] Cmd.None [] 0,
           [Ev.viewed, Ev.committed] ++ [Ev.viewed, Ev.committed, Ev.updated 7]
             ++ [Ev.viewed, Ev.committed])
    ∧ ([Ev.viewed, Ev.committed] ++ [Ev.viewed, Ev.committed, Ev.updated 7]
         ++ [Ev.viewed, Ev.committed]).filterMap Ev.msg
        = [Ev.viewed, Ev.committed, Ev.updated 7].filterMap Ev.msg :=
  and_then_none_noop natAutomat (Cmd.dispatch 7) [] [7] 1 0 0
    [Ev.viewed, Ev.committed, Ev.updated 7] rfl rfl rfl (fun _ => rfl) []
